import Mathlib

/-
Verification of the configuration-materialization layer of kohkimakimoto/xssh
(source file: src/essh/lualib.go).

The embedding models Lua runtime values (gopher-lua LValue) as an inductive
type, Lua tables as association lists of key/value pairs in iteration order,
and the Go-side registration functions (registerHost, registerTask,
registerHook, registerRemoteHook, esshRequire, esshReset, toGoValue and its
helpers) as Lean functions.  A RaiseError or panic in the Go code aborts the
whole registration, which is modelled by Except String results.
-/

namespace Essh

/-- Lua runtime values (gopher-lua LValue).  A table is its list of key/value
entries in iteration order (array part first, as produced by ForEach).
Numbers are modelled with integer payloads: every number the claims exercise
is integral, and float formatting/precision is out of scope.  Functions and
userdata are identified by an opaque id; their addresses are abstracted. -/
inductive LValue where
  | lnil : LValue
  | lbool (b : Bool) : LValue
  | lstr (s : String) : LValue
  | lnum (n : Int) : LValue
  | ltable (entries : List (LValue × LValue)) : LValue
  | lfunc (fid : Nat) : LValue

/-- Go-side dynamic values produced by toGoValue: nil, bool, string, float64,
map of string to value, slice of values, or an opaque pass-through. -/
inductive GoValue where
  | gnil : GoValue
  | gbool (b : Bool) : GoValue
  | gstr (s : String) : GoValue
  | gnum (n : Int) : GoValue
  | gmap (m : List (String × GoValue)) : GoValue
  | garr (l : List GoValue) : GoValue
  | gpass (fid : Nat) : GoValue

/-- The String() method of gopher-lua values, as used for config keys and the
invalid hook type %v message.  Pointer addresses of tables and functions are
abstracted to a fixed 0x0; only their (lower-case) textual form matters here. -/
def lvString : LValue → String
  | .lnil => "nil"
  | .lbool b => if b then "true" else "false"
  | .lstr s => s
  | .lnum n => ToString.toString n
  | .ltable _ => "table: 0x0"
  | .lfunc _ => "function: 0x0"

/-- The fmt.Sprint rendering of a converted Go value, used to stringify map
keys in toGoValue.  Scalar cases follow Go %v; composite renderings are
abstracted (no claim exercises a composite key). -/
def goString : GoValue → String
  | .gnil => "<nil>"
  | .gbool b => if b then "true" else "false"
  | .gstr s => s
  | .gnum n => ToString.toString n
  | .gmap _ => "map[]"
  | .garr _ => "[]"
  | .gpass _ => "function"

/-- RawGetString: raw lookup of a string key in a table, lua.LNil if absent. -/
def rawGetString (entries : List (LValue × LValue)) (key : String) : LValue :=
  match entries with
  | [] => .lnil
  | (k, v) :: rest =>
    match k with
    | .lstr s => if s = key then v else rawGetString rest key
    | _ => rawGetString rest key

/-- RawGetInt: raw lookup of an integer key in a table, lua.LNil if absent. -/
def rawGetInt (entries : List (LValue × LValue)) (i : Int) : LValue :=
  match entries with
  | [] => .lnil
  | (k, v) :: rest =>
    match k with
    | .lnum j => if j = i then v else rawGetInt rest i
    | _ => rawGetInt rest i

/-- Whether a table has the integer key i (as a Lua number key). -/
def hasIntKey (entries : List (LValue × LValue)) (i : Nat) : Bool :=
  entries.any (fun e =>
    match e.1 with
    | .lnum j => j = (i : Int)
    | _ => false)

/-- Keys 1..n are all present in the table. -/
def allPresent (entries : List (LValue × LValue)) (n : Nat) : Bool :=
  (List.range n).all (fun j => hasIntKey entries (j + 1))

/-- Modelled from the spec: gopher-lua LTable.MaxN (the table method is part
of the external scripting runtime, not of src/).  Per the spec it is the
largest integer n such that keys 1..n are all present and contiguous from 1;
it is computed here as the greatest such n, bounded by the entry count. -/
def MaxN (entries : List (LValue × LValue)) : Nat :=
  Nat.findGreatest (fun n => allPresent entries n = true) entries.length

theorem rawGetInt_sizeOf_le (entries : List (LValue × LValue)) (i : Int) :
    sizeOf (rawGetInt entries i) ≤ sizeOf entries := by
  induction entries with
  | nil => simp [rawGetInt]
  | cons head rest ih =>
    obtain ⟨k, v⟩ := head
    cases k
    case lnum j =>
      simp only [rawGetInt]
      split
      · simp <;> omega
      · simp <;> omega
    all_goals simp only [rawGetInt]
    all_goals (simp <;> omega)

mutual

/-- toGoValue from lualib.go: converts a Lua value to a Go value.  A table
with MaxN = 0 becomes a map of stringified keys (iteration order kept in the
association-list model); otherwise it becomes a slice of the values at
integer keys 1..MaxN in index order. -/
def toGoValue : LValue → GoValue
  | .lnil => .gnil
  | .lbool b => .gbool b
  | .lstr s => .gstr s
  | .lnum n => .gnum n
  | .lfunc fid => .gpass fid
  | .ltable entries =>
    if MaxN entries = 0 then
      .gmap (goEntries entries)
    else
      .garr ((List.range (MaxN entries)).map
        (fun i => toGoValue (rawGetInt entries ((i : Int) + 1))))
termination_by lv => sizeOf lv
decreasing_by
  · simp <;> omega
  · have h := rawGetInt_sizeOf_le entries ((i : Int) + 1)
    simp <;> omega

/-- The per-entry conversion of a map-shaped table: each key is stringified
via fmt.Sprint of its converted value, each value converted recursively. -/
def goEntries : List (LValue × LValue) → List (String × GoValue)
  | [] => []
  | (k, v) :: rest => (goString (toGoValue k), toGoValue v) :: goEntries rest
termination_by l => sizeOf l
decreasing_by
  · simp <;> omega
  · simp <;> omega
  · simp <;> omega

end

/-- toBool from lualib.go: the value as a Bool when it is a Lua boolean. -/
def toBool (v : LValue) : Option Bool :=
  match v with
  | .lbool b => some b
  | _ => none

/-- toString from lualib.go: the value as a String when it is a Lua string. -/
def toString (v : LValue) : Option String :=
  match v with
  | .lstr s => some s
  | _ => none

/-- toMap from lualib.go: the converted value when it is a Go map. -/
def toMap (v : LValue) : Option (List (String × GoValue)) :=
  match toGoValue v with
  | .gmap m => some m
  | _ => none

/-- toSlice from lualib.go: the converted value when it is a Go slice. -/
def toSlice (v : LValue) : Option (List GoValue) :=
  match toGoValue v with
  | .garr l => some l
  | _ => none

/-- toLFunction from lualib.go: the function id when the value is callable. -/
def toLFunction (v : LValue) : Option Nat :=
  match v with
  | .lfunc fid => some fid
  | _ => none

/-- toLTable from lualib.go: the entries when the value is a table. -/
def toLTable (v : LValue) : Option (List (LValue × LValue)) :=
  match v with
  | .ltable entries => some entries
  | _ => none

/-- A hook value stored in Host.Hooks: either a wrapped native callback
(the closure performing a protected call of the Lua function, identified
here by the function id it captures) or a remote command string. -/
inductive HookValue where
  | nativeCallback (fid : Nat) : HookValue
  | remoteCommand (cmd : String) : HookValue

/-- The Host entity assembled by registerHost.  Hooks is the hook-point map
in registration order; Config is the filtered configuration table. -/
structure Host where
  Name : String
  Config : List (LValue × LValue)
  Hooks : List (String × HookValue)
  Description : String
  Hidden : Bool
  Tags : List String

/-- The Task entity assembled by registerTask.  Prepare holds the id of the
Lua function captured by the prepare closure, if one was registered. -/
structure Task where
  Name : String
  Description : String
  Pty : Bool
  Parallel : Bool
  Privileged : Bool
  Script : String
  File : String
  On : List String
  Foreach : List String
  Prefix : String
  Prepare : Option Nat

/-- Modelled from the spec: NewTask (defined outside the given source file)
yields a zero-valued Task that registerTask populates field by field. -/
def NewTask : Task :=
  { Name := "", Description := "", Pty := false, Parallel := false,
    Privileged := false, Script := "", File := "", On := [], Foreach := [],
    Prefix := "", Prepare := none }

/-- Modelled from the spec: IsRemoteTask (defined outside the given source
file) classifies a task as remote when any of On/Foreach is populated. -/
def Task.IsRemoteTask (t : Task) : Bool :=
  !t.On.isEmpty || !t.Foreach.isEmpty

/-- Modelled from the spec: the default local prefix string (its concrete
content lives outside the given source file and is irrelevant here). -/
def DefaultPrefixLocal : String := "[local] "

/-- Modelled from the spec: the default remote prefix string (its concrete
content lives outside the given source file and is irrelevant here). -/
def DefaultPrefixRemote : String := "[remote] "

/-- First-match lookup of a string key, modelling a read of a Go map whose
keys are written at most once (or updated in place by setStr). -/
def lookupStr {α : Type} (l : List (String × α)) (k : String) : Option α :=
  match l with
  | [] => none
  | (k2, v) :: rest => if k2 = k then some v else lookupStr rest k

/-- Write of a Go map entry: replaces the entry for the key when present,
otherwise appends it. -/
def setStr {α : Type} (l : List (String × α)) (k : String) (v : α) :
    List (String × α) :=
  match l with
  | [] => [(k, v)]
  | (k2, v2) :: rest =>
    if k2 = k then (k, v) :: rest else (k2, v2) :: setStr rest k v

/-- registerHook from lualib.go: no-op on Nil; a callable is wrapped as a
native-callback hook; a string is stored verbatim as a remote command;
anything else is the invalid hook type error (fmt %v of the value). -/
def registerHook (hooks : List (String × HookValue)) (point : String)
    (hook : LValue) : Except String (List (String × HookValue)) :=
  match hook with
  | .lnil => .ok hooks
  | .lfunc fid => .ok (hooks ++ [(point, .nativeCallback fid)])
  | .lstr s => .ok (hooks ++ [(point, .remoteCommand s)])
  | v => .error ("invalid hook type " ++ lvString v)

/-- registerRemoteHook from lualib.go: no-op on Nil; only a string is
accepted (stored verbatim); anything else, callables included, is the
invalid hook type error. -/
def registerRemoteHook (hooks : List (String × HookValue)) (point : String)
    (hook : LValue) : Except String (List (String × HookValue)) :=
  match hook with
  | .lnil => .ok hooks
  | .lstr s => .ok (hooks ++ [(point, .remoteCommand s)])
  | v => .error ("invalid hook type " ++ lvString v)

/-- The hook-registration sequence of registerHost on an extracted hooks
table: register before, before_connect, after_connect (remote-only), after,
after_disconnect in this order, stopping at the first error. -/
def hostHooksTb (hookTb : List (LValue × LValue)) :
    Except String (List (String × HookValue)) :=
  match registerHook [] "before" (rawGetString hookTb "before") with
  | .error e => .error e
  | .ok h1 =>
    match registerHook h1 "before_connect"
        (rawGetString hookTb "before_connect") with
    | .error e => .error e
    | .ok h2 =>
      match registerRemoteHook h2 "after_connect"
          (rawGetString hookTb "after_connect") with
      | .error e => .error e
      | .ok h3 =>
        match registerHook h3 "after" (rawGetString hookTb "after") with
        | .error e => .error e
        | .ok h4 =>
          registerHook h4 "after_disconnect"
            (rawGetString hookTb "after_disconnect")

/-- The hook-registration block of registerHost: only a table-shaped hooks
value is inspected (toLTable), anything else registers no hooks. -/
def hostHooks (hooksv : LValue) : Except String (List (String × HookValue)) :=
  match hooksv with
  | .ltable hookTb => hostHooksTb hookTb
  | _ => .ok []

/-- The tags loop of registerHost: every element value must be a string
(collected in iteration order) or the whole construction fails. -/
def tagsFold (entries : List (LValue × LValue)) : Except String (List String) :=
  match entries with
  | [] => .ok []
  | kv :: rest =>
    match toString kv.2 with
    | some s =>
      match tagsFold rest with
      | .ok l => .ok (s :: l)
      | .error e => .error e
    | none => .error "unsupported format of tags."

/-- The tags extraction of registerHost: only a table-shaped tags value is
inspected; anything else leaves Tags empty. -/
def collectTags (tagsv : LValue) : Except String (List String) :=
  match tagsv with
  | .ltable tagsTb => tagsFold tagsTb
  | _ => .ok []

/-- The first rune of a string, the zero rune for the empty string (the Go
code leaves firstChar at its zero value when the key is empty). -/
def firstRune (s : String) : Char :=
  match s.data with
  | [] => Char.ofNat 0
  | c :: _ => c

/-- registerHost from lualib.go, parameterized by the unicode.IsUpper test
isUp: filter the config by the upper-case-first-rune rule, register hooks,
extract description, hidden and tags, and produce the Host.  Any RaiseError
or hook panic aborts construction with that error. -/
def registerHost (isUp : Char → Bool) (name : String)
    (config : List (LValue × LValue)) : Except String Host :=
  let newConfig := config.filter (fun e => isUp (firstRune (lvString e.1)))
  match hostHooks (rawGetString config "hooks") with
  | .error e => .error e
  | .ok hks =>
    match collectTags (rawGetString config "tags") with
    | .error e => .error e
    | .ok tags =>
      .ok { Name := name, Config := newConfig, Hooks := hks,
            Description := (toString (rawGetString config "description")).getD "",
            Hidden := (toBool (rawGetString config "hidden")).getD false,
            Tags := tags }

/-- The on/foreach coercion of registerTask: a single string becomes a
one-element list; a slice keeps its string elements (others are dropped);
anything else yields the empty list. -/
def taskTargets (v : LValue) : List String :=
  match toString v with
  | some s => [s]
  | none =>
    match toSlice v with
    | some l =>
      l.filterMap (fun g =>
        match g with
        | .gstr s => some s
        | _ => none)
    | none => []

/-- registerTask from lualib.go: populate the optional fields, enforce the
file/script and foreach/on exclusivity checks in source order, resolve the
prefix, and validate prepare (which must be callable when present). -/
def registerTask (name : String) (config : List (LValue × LValue)) :
    Except String Task :=
  let descr := (toString (rawGetString config "description")).getD ""
  let ptyB := (toBool (rawGetString config "pty")).getD false
  let parallelB := (toBool (rawGetString config "parallel")).getD false
  let privilegedB := (toBool (rawGetString config "privileged")).getD false
  let scriptS := (toString (rawGetString config "script")).getD ""
  let fileS := (toString (rawGetString config "file")).getD ""
  if fileS ≠ "" ∧ scriptS ≠ "" then
    .error "invalid task definition: can\x27t use \x27file\x27 and \x27script\x27 at the same time."
  else
    let onT := taskTargets (rawGetString config "on")
    let feT := taskTargets (rawGetString config "foreach")
    if 1 ≤ feT.length ∧ 1 ≤ onT.length then
      .error "invalid task definition: can\x27t use \x27foreach\x27 and \x27on\x27 at the same time."
    else
      let t0 : Task :=
        { NewTask with
          Name := name
          Description := descr
          Pty := ptyB
          Parallel := parallelB
          Privileged := privilegedB
          Script := scriptS
          File := fileS
          On := onT
          Foreach := feT }
      let t1 :=
        match toBool (rawGetString config "prefix") with
        | some b =>
          if b then
            { t0 with Prefix := if t0.IsRemoteTask then DefaultPrefixRemote
                                else DefaultPrefixLocal }
          else t0
        | none =>
          match toString (rawGetString config "prefix") with
          | some s => { t0 with Prefix := s }
          | none => t0
      match rawGetString config "prepare" with
      | .lnil => .ok t1
      | .lfunc fid => .ok { t1 with Prepare := some fid }
      | _ => .error "prepare have to be function."

/-- The outcome of the protected call that the prepare closure performs:
either the call itself failed at runtime, or it returned a single value. -/
inductive CallResult where
  | err (e : String) : CallResult
  | ret (v : LValue) : CallResult

/-- The body of the task.Prepare closure built by registerTask: a runtime
failure of the callback is propagated verbatim; a returned Nil or boolean
true reports success; boolean false reports the explicit error; any other
returned value reports success.  some e is a returned error, none success. -/
def prepareInvoke (r : CallResult) : Option String :=
  match r with
  | .err e => some e
  | .ret v =>
    match v with
    | .lnil => none
    | .lbool b =>
      if b then none
      else some "returned false from the prepare function."
    | _ => none

/-- The process-wide mutable state of the layer: the Host and Task
collections, the module registry (name to cached Value), and a counter of
Module Loader invocations (modelled from the spec; it counts the
load-and-evaluate work done on a registry miss). -/
structure EsshState where
  Hosts : List Host
  Tasks : List Task
  LoadedModules : List (String × LValue)
  loaderCalls : Nat

/-- esshReset from lualib.go: empty the Task and Host collections. -/
def esshReset (s : EsshState) : EsshState :=
  { s with Tasks := [], Hosts := [] }

/-- The essh.host entry point at the collection level: on success the built
host is appended to the Host collection; a raised error aborts the run. -/
def esshHostOp (isUp : Char → Bool) (s : EsshState) (name : String)
    (config : List (LValue × LValue)) : Except String EsshState :=
  match registerHost isUp name config with
  | .error e => .error e
  | .ok h => .ok { s with Hosts := s.Hosts ++ [h] }

/-- The essh.task entry point at the collection level: on success the built
task is appended to the Task collection; a raised error aborts the run. -/
def esshTaskOp (s : EsshState) (name : String)
    (config : List (LValue × LValue)) : Except String EsshState :=
  match registerTask name config with
  | .error e => .error e
  | .ok t => .ok { s with Tasks := s.Tasks ++ [t] }

/-- esshRequire from lualib.go.  The eval parameter is modelled from the
spec: it bundles the external Module Loader materialization (Module.Load,
IndexFile) and the evaluation of the module index script (DoFile), which
may itself mutate the whole state; its result is the final expression value
of the script.  On a registry hit the cached value is returned with no
loader call; on a miss the loader counter is bumped, the script is
evaluated, and the value is registered before returning. -/
def esshRequire
    (eval : String → EsshState → Except String (EsshState × LValue))
    (s : EsshState) (name : String) : Except String (EsshState × LValue) :=
  match lookupStr s.LoadedModules name with
  | some v => .ok (s, v)
  | none =>
    match eval name { s with loaderCalls := s.loaderCalls + 1 } with
    | .error e => .error e
    | .ok (s2, ret) =>
      .ok ({ s2 with LoadedModules := setStr s2.LoadedModules name ret }, ret)

/-- A loader/evaluator used to instantiate esshRequire on concrete inputs:
it evaluates every module index script to the string value modval. -/
def constEval : String → EsshState → Except String (EsshState × LValue) :=
  fun _ s => .ok (s, .lstr "modval")

theorem lookupStr_setStr_self {α : Type} (l : List (String × α)) (k : String)
    (v : α) : lookupStr (setStr l k v) k = some v := by
  induction l with
  | nil => simp [setStr, lookupStr]
  | cons p rest ih =>
    obtain ⟨k2, v2⟩ := p
    by_cases hk : k2 = k
    · simp [setStr, hk, lookupStr]
    · simp [setStr, hk, lookupStr, ih]

theorem esshTaskOp_error (s : EsshState) (name : String)
    (config : List (LValue × LValue)) (e : String)
    (h : registerTask name config = .error e) :
    esshTaskOp s name config = .error e := by
  simp [esshTaskOp, h]

/-- Claim C9: reset() empties the Host and Task collections and leaves every
previously cached Module value unchanged. -/
theorem reset_clears_hosts_tasks (s : EsshState) :
    (esshReset s).Hosts = [] ∧ (esshReset s).Tasks = [] ∧
      (esshReset s).LoadedModules = s.LoadedModules := by
  simp [esshReset]

/-- Claim C10: when the prepare callback completes and returns a single
value that is neither nil nor a boolean, the wrapped Prepare invocation
reports success (no error). -/
theorem prepare_nonbool_success (v : LValue) (h1 : v ≠ .lnil)
    (h2 : ∀ b, v ≠ .lbool b) : prepareInvoke (.ret v) = none := by
  cases v with
  | lnil => exact absurd rfl h1
  | lbool b => exact absurd rfl (h2 b)
  | lstr s => rfl
  | lnum n => rfl
  | ltable e => rfl
  | lfunc f => rfl

theorem prepare_nonbool_success_w :
    prepareInvoke (.ret (.lstr "done")) = none :=
  prepare_nonbool_success (.lstr "done") (by simp) (fun b => by simp)

/-- Claim C1: require(m) caches the evaluated module value under m on the
first call; a second call returns exactly the cached value with the state,
loader-invocation counter included, unchanged: the Module Loader is not
invoked again and the script is not re-evaluated. -/
theorem require_memoizes_module
    (eval : String → EsshState → Except String (EsshState × LValue))
    (s : EsshState) (name : String) (s1 : EsshState) (v1 : LValue)
    (h : esshRequire eval s name = .ok (s1, v1)) :
    lookupStr s1.LoadedModules name = some v1 ∧
      esshRequire eval s1 name = .ok (s1, v1) := by
  have hmem : lookupStr s1.LoadedModules name = some v1 := by
    unfold esshRequire at h
    cases hl : lookupStr s.LoadedModules name with
    | some v =>
      rw [hl] at h
      simp at h
      obtain ⟨hs, hv⟩ := h
      rw [← hs, ← hv]
      exact hl
    | none =>
      rw [hl] at h
      cases he : eval name { s with loaderCalls := s.loaderCalls + 1 } with
      | error e => rw [he] at h; simp at h
      | ok p =>
        obtain ⟨s2, ret⟩ := p
        rw [he] at h
        simp at h
        obtain ⟨hs, hv⟩ := h
        rw [← hs, ← hv]
        exact lookupStr_setStr_self _ _ _
  exact ⟨hmem, by simp [esshRequire, hmem]⟩

theorem require_memoizes_module_w :
    esshRequire constEval { Hosts := [], Tasks := [], LoadedModules := [], loaderCalls := 0 } "m" =
      .ok ({ Hosts := [], Tasks := [], LoadedModules := [("m", .lstr "modval")], loaderCalls := 1 }, .lstr "modval") ∧
    esshRequire constEval { Hosts := [], Tasks := [], LoadedModules := [("m", .lstr "modval")], loaderCalls := 1 } "m" =
      .ok ({ Hosts := [], Tasks := [], LoadedModules := [("m", .lstr "modval")], loaderCalls := 1 }, .lstr "modval") := by
  refine ⟨rfl, ?_⟩
  exact (require_memoizes_module constEval
    { Hosts := [], Tasks := [], LoadedModules := [], loaderCalls := 0 } "m" _ _ rfl).2

/-- Claim C3: when both the file and script keys of a task configuration
hold non-empty strings, construction fails with the file/script exclusivity
error and the task is not appended to the Task collection. -/
theorem task_file_script_exclusive (name : String)
    (config : List (LValue × LValue)) (s f : String)
    (hs : toString (rawGetString config "script") = some s)
    (hf : toString (rawGetString config "file") = some f)
    (hsn : s ≠ "") (hfn : f ≠ "") :
    registerTask name config =
        .error "invalid task definition: can\x27t use \x27file\x27 and \x27script\x27 at the same time." ∧
      ∀ st, esshTaskOp st name config =
        .error "invalid task definition: can\x27t use \x27file\x27 and \x27script\x27 at the same time." := by
  have h1 : registerTask name config =
      .error "invalid task definition: can\x27t use \x27file\x27 and \x27script\x27 at the same time." := by
    simp [registerTask, hs, hf, hsn, hfn]
  exact ⟨h1, fun st => esshTaskOp_error st name config _ h1⟩

theorem task_file_script_exclusive_w :
    registerTask "deploy" [(.lstr "script", .lstr "ls"), (.lstr "file", .lstr "run.sh")] =
      .error "invalid task definition: can\x27t use \x27file\x27 and \x27script\x27 at the same time." :=
  (task_file_script_exclusive "deploy"
    [(.lstr "script", .lstr "ls"), (.lstr "file", .lstr "run.sh")] "ls" "run.sh"
    rfl rfl (by simp) (by simp)).1

/-- Claim C4 counterexample: a configuration whose on and foreach keys both
coerce to non-empty sequences, but which also sets both file and script,
fails with the file/script exclusivity error, not with the on/foreach
exclusivity error the claim names. -/
theorem task_on_foreach_precedence_cx :
    taskTargets (rawGetString [(LValue.lstr "file", LValue.lstr "f"),
        (LValue.lstr "script", LValue.lstr "s"), (LValue.lstr "on", LValue.lstr "web"),
        (LValue.lstr "foreach", LValue.lstr "x")] "on") = ["web"] ∧
    taskTargets (rawGetString [(LValue.lstr "file", LValue.lstr "f"),
        (LValue.lstr "script", LValue.lstr "s"), (LValue.lstr "on", LValue.lstr "web"),
        (LValue.lstr "foreach", LValue.lstr "x")] "foreach") = ["x"] ∧
    registerTask "t" [(LValue.lstr "file", LValue.lstr "f"),
        (LValue.lstr "script", LValue.lstr "s"), (LValue.lstr "on", LValue.lstr "web"),
        (LValue.lstr "foreach", LValue.lstr "x")] =
      .error "invalid task definition: can\x27t use \x27file\x27 and \x27script\x27 at the same time." ∧
    "invalid task definition: can\x27t use \x27file\x27 and \x27script\x27 at the same time." ≠
      "invalid task definition: can\x27t use \x27foreach\x27 and \x27on\x27 at the same time." := by
  refine ⟨rfl, rfl, ?_, by decide⟩
  rfl

/-- Claim C4, amended: when the on and foreach keys both coerce to non-empty
sequences and the file/script exclusivity check passes (file and script are
not both non-empty), task construction fails with the on/foreach exclusivity
error and the task is not appended to the Task collection. -/
theorem task_on_foreach_exclusive_amended (name : String)
    (config : List (LValue × LValue))
    (hon : taskTargets (rawGetString config "on") ≠ [])
    (hfe : taskTargets (rawGetString config "foreach") ≠ [])
    (hfs : (toString (rawGetString config "file")).getD "" = "" ∨
           (toString (rawGetString config "script")).getD "" = "") :
    registerTask name config =
        .error "invalid task definition: can\x27t use \x27foreach\x27 and \x27on\x27 at the same time." ∧
      ∀ st, esshTaskOp st name config =
        .error "invalid task definition: can\x27t use \x27foreach\x27 and \x27on\x27 at the same time." := by
  have hnand : ¬((toString (rawGetString config "file")).getD "" ≠ "" ∧
      (toString (rawGetString config "script")).getD "" ≠ "") := by
    rcases hfs with h | h <;> simp [h]
  have hlon : 1 ≤ (taskTargets (rawGetString config "on")).length :=
    List.length_pos.mpr hon
  have hlfe : 1 ≤ (taskTargets (rawGetString config "foreach")).length :=
    List.length_pos.mpr hfe
  have h1 : registerTask name config =
      .error "invalid task definition: can\x27t use \x27foreach\x27 and \x27on\x27 at the same time." := by
    simp [registerTask, hnand, hlon, hlfe]
  exact ⟨h1, fun st => esshTaskOp_error st name config _ h1⟩

theorem task_on_foreach_exclusive_amended_w :
    registerTask "t" [(.lstr "on", .lstr "web"), (.lstr "foreach", .lstr "x")] =
      .error "invalid task definition: can\x27t use \x27foreach\x27 and \x27on\x27 at the same time." :=
  (task_on_foreach_exclusive_amended "t"
    [(.lstr "on", .lstr "web"), (.lstr "foreach", .lstr "x")]
    (by simp [taskTargets, rawGetString, toString])
    (by simp [taskTargets, rawGetString, toString])
    (.inl rfl)).1

/-- Claim C7 counterexample: a configuration whose prepare value is a
non-callable, non-nil string, but which also sets both file and script,
fails with the file/script exclusivity error, not with the prepare error the
claim names. -/
theorem task_prepare_precedence_cx :
    rawGetString [(LValue.lstr "file", LValue.lstr "f"),
        (LValue.lstr "script", LValue.lstr "s"),
        (LValue.lstr "prepare", LValue.lstr "x")] "prepare" = .lstr "x" ∧
    registerTask "t" [(LValue.lstr "file", LValue.lstr "f"),
        (LValue.lstr "script", LValue.lstr "s"),
        (LValue.lstr "prepare", LValue.lstr "x")] =
      .error "invalid task definition: can\x27t use \x27file\x27 and \x27script\x27 at the same time." ∧
    "invalid task definition: can\x27t use \x27file\x27 and \x27script\x27 at the same time." ≠
      "prepare have to be function." := by
  refine ⟨rfl, ?_, by decide⟩
  rfl

/-- Claim C7, amended: when the earlier exclusivity checks pass, a
non-callable, non-nil prepare value fails construction with the prepare
error; the wrapped Prepare invocation reports success when the callback
returns nil or boolean true, reports the returned-false error when it
returns boolean false, and propagates a runtime failure of the callback
verbatim. -/
theorem task_prepare_amended (name : String)
    (config : List (LValue × LValue)) (v : LValue)
    (hp : rawGetString config "prepare" = v)
    (hnil : v ≠ .lnil)
    (hfn : ∀ fid, v ≠ .lfunc fid)
    (hfs : (toString (rawGetString config "file")).getD "" = "" ∨
           (toString (rawGetString config "script")).getD "" = "")
    (hof : taskTargets (rawGetString config "on") = [] ∨
           taskTargets (rawGetString config "foreach") = []) :
    registerTask name config = .error "prepare have to be function." ∧
      (∀ e, prepareInvoke (.err e) = some e) ∧
      prepareInvoke (.ret .lnil) = none ∧
      prepareInvoke (.ret (.lbool true)) = none ∧
      prepareInvoke (.ret (.lbool false)) =
        some "returned false from the prepare function." := by
  have hnand1 : ¬((toString (rawGetString config "file")).getD "" ≠ "" ∧
      (toString (rawGetString config "script")).getD "" ≠ "") := by
    rcases hfs with h | h <;> simp [h]
  have hnand2 : ¬(1 ≤ (taskTargets (rawGetString config "foreach")).length ∧
      1 ≤ (taskTargets (rawGetString config "on")).length) := by
    rcases hof with h | h <;> simp [h]
  refine ⟨?_, fun e => rfl, rfl, rfl, rfl⟩
  cases v with
  | lnil => exact absurd rfl hnil
  | lfunc fid => exact absurd rfl (hfn fid)
  | lbool b => simp [registerTask, hnand1, hnand2, hp]
  | lstr s => simp [registerTask, hnand1, hnand2, hp]
  | lnum n => simp [registerTask, hnand1, hnand2, hp]
  | ltable e => simp [registerTask, hnand1, hnand2, hp]

theorem task_prepare_amended_w :
    registerTask "t" [(.lstr "prepare", .lstr "x")] =
        .error "prepare have to be function." ∧
      prepareInvoke (.ret (.lbool false)) =
        some "returned false from the prepare function." := by
  have h := task_prepare_amended "t" [(.lstr "prepare", .lstr "x")]
    (.lstr "x") rfl (by simp) (fun fid => by simp) (.inl rfl)
    (.inl (by simp [taskTargets, rawGetString, toString, toSlice, toGoValue]))
  exact ⟨h.1, h.2.2.2.2⟩

theorem registerHost_ok_parts (isUp : Char → Bool) (name : String)
    (config : List (LValue × LValue)) (h : Host)
    (hok : registerHost isUp name config = .ok h) :
    h.Config = config.filter (fun e => isUp (firstRune (lvString e.1))) ∧
      hostHooks (rawGetString config "hooks") = .ok h.Hooks ∧
      collectTags (rawGetString config "tags") = .ok h.Tags := by
  unfold registerHost at hok
  cases hh : hostHooks (rawGetString config "hooks") with
  | error e => rw [hh] at hok; simp at hok
  | ok hks =>
    rw [hh] at hok
    cases ht : collectTags (rawGetString config "tags") with
    | error e => rw [ht] at hok; simp at hok
    | ok tags =>
      rw [ht] at hok
      simp at hok
      rw [← hok]
      exact ⟨rfl, rfl, rfl⟩

/-- Claim C5: a key of the host configuration table is retained, with its
unchanged value, in the built host Config exactly when the unicode upper
case test isUp accepts the first rune of the key string representation. -/
theorem host_config_uppercase_filter (isUp : Char → Bool) (name : String)
    (config : List (LValue × LValue)) (h : Host) (k v : LValue)
    (hok : registerHost isUp name config = .ok h) :
    (k, v) ∈ h.Config ↔
      (k, v) ∈ config ∧ isUp (firstRune (lvString k)) = true := by
  rw [(registerHost_ok_parts isUp name config h hok).1]
  simp [List.mem_filter]

theorem host_config_uppercase_filter_w :
    ∃ h, registerHost Char.isUpper "web"
        [(.lstr "User", .lstr "kohki"), (.lstr "user", .lstr "x")] = .ok h ∧
      (LValue.lstr "User", LValue.lstr "kohki") ∈ h.Config ∧
      ¬((LValue.lstr "user", LValue.lstr "x") ∈ h.Config) := by
  have hok : registerHost Char.isUpper "web"
      [(.lstr "User", .lstr "kohki"), (.lstr "user", .lstr "x")] =
      .ok { Name := "web", Config := [(.lstr "User", .lstr "kohki")],
            Hooks := [], Description := "", Hidden := false, Tags := [] } := rfl
  refine ⟨_, hok, ?_, ?_⟩
  · exact (host_config_uppercase_filter Char.isUpper "web" _ _ _ _ hok).mpr
      ⟨by simp, by decide⟩
  · intro hmem
    have := ((host_config_uppercase_filter Char.isUpper "web" _ _ _ _ hok).mp
      hmem).2
    simp [firstRune, lvString] at this

theorem registerHook_cases (hooks : List (String × HookValue)) (pt : String)
    (v : LValue) :
    (∃ sfx, registerHook hooks pt v = .ok (hooks ++ sfx) ∧
        ∀ p ∈ sfx, p.1 = pt) ∨
      (∃ lv, registerHook hooks pt v =
        .error ("invalid hook type " ++ lvString lv)) := by
  cases v with
  | lnil => exact .inl ⟨[], by simp [registerHook], by simp⟩
  | lfunc fid => exact .inl ⟨[(pt, .nativeCallback fid)], rfl, by simp⟩
  | lstr s => exact .inl ⟨[(pt, .remoteCommand s)], rfl, by simp⟩
  | lbool b => exact .inr ⟨.lbool b, rfl⟩
  | lnum n => exact .inr ⟨.lnum n, rfl⟩
  | ltable e => exact .inr ⟨.ltable e, rfl⟩

theorem registerHook_ok_points (hooks h2 : List (String × HookValue))
    (pt : String) (v : LValue) (h : registerHook hooks pt v = .ok h2) :
    ∃ sfx, h2 = hooks ++ sfx ∧ ∀ p ∈ sfx, p.1 = pt := by
  rcases registerHook_cases hooks pt v with ⟨sfx, he, hp⟩ | ⟨lv, he⟩
  · rw [he] at h
    exact ⟨sfx, (Except.ok.inj h).symm, hp⟩
  · rw [he] at h
    simp at h

theorem lookupStr_append_right {α : Type} (a : List (String × α)) (k : String)
    (v : α) (b : List (String × α)) (hk : ∀ p ∈ a, p.1 ≠ k) :
    lookupStr (a ++ (k, v) :: b) k = some v := by
  induction a with
  | nil => simp [lookupStr]
  | cons p rest ih =>
    obtain ⟨k2, v2⟩ := p
    have hne : k2 ≠ k := hk (k2, v2) (by simp)
    simp only [List.cons_append, lookupStr, if_neg hne]
    exact ih (fun q hq => hk q (by simp [hq]))

theorem hostHooks_afterconnect_fn (hookTb : List (LValue × LValue)) (fid : Nat)
    (hfn : rawGetString hookTb "after_connect" = .lfunc fid) :
    ∃ lv, hostHooksTb hookTb =
      .error ("invalid hook type " ++ lvString lv) := by
  unfold hostHooksTb
  rcases registerHook_cases [] "before" (rawGetString hookTb "before") with
    ⟨s1, h1, _⟩ | ⟨lv, h1⟩
  · rw [h1]
    dsimp only
    rcases registerHook_cases ([] ++ s1) "before_connect"
        (rawGetString hookTb "before_connect") with ⟨s2, h2, _⟩ | ⟨lv, h2⟩
    · rw [h2, hfn]
      dsimp only
      exact ⟨.lfunc fid, rfl⟩
    · rw [h2]
      exact ⟨lv, rfl⟩
  · rw [h1]
    exact ⟨lv, rfl⟩

theorem hostHooks_afterconnect_str (hookTb : List (LValue × LValue))
    (s : String) (hks : List (String × HookValue))
    (hstr : rawGetString hookTb "after_connect" = .lstr s)
    (h : hostHooksTb hookTb = .ok hks) :
    lookupStr hks "after_connect" = some (.remoteCommand s) := by
  unfold hostHooksTb at h
  cases hb : registerHook [] "before" (rawGetString hookTb "before") with
  | error e => rw [hb] at h; simp at h
  | ok h1 =>
    rw [hb] at h
    dsimp only at h
    cases hbc : registerHook h1 "before_connect"
        (rawGetString hookTb "before_connect") with
    | error e => rw [hbc] at h; simp at h
    | ok h2 =>
      rw [hbc] at h
      dsimp only at h
      rw [hstr] at h
      rw [show registerRemoteHook h2 "after_connect" (.lstr s) =
          .ok (h2 ++ [("after_connect", .remoteCommand s)]) from rfl] at h
      dsimp only at h
      cases ha : registerHook (h2 ++ [("after_connect", .remoteCommand s)])
          "after" (rawGetString hookTb "after") with
      | error e => rw [ha] at h; simp at h
      | ok h4 =>
        rw [ha] at h
        dsimp only at h
        obtain ⟨s1, hs1, hp1⟩ := registerHook_ok_points _ _ _ _ hb
        obtain ⟨s2, hs2, hp2⟩ := registerHook_ok_points _ _ _ _ hbc
        obtain ⟨s4, hs4, hp4⟩ := registerHook_ok_points _ _ _ _ ha
        obtain ⟨s5, hs5, hp5⟩ := registerHook_ok_points _ _ _ _ h
        have hkeys : ∀ p ∈ h2, p.1 ≠ "after_connect" := by
          intro p hp
          rw [hs2] at hp
          rcases List.mem_append.mp hp with hp' | hp'
          · rw [hs1] at hp'
            rcases List.mem_append.mp hp' with hp'' | hp''
            · simp at hp''
            · rw [hp1 p hp'']
              decide
          · rw [hp2 p hp']
            decide
        rw [hs5, hs4]
        have hassoc :
            ((h2 ++ [("after_connect", HookValue.remoteCommand s)]) ++ s4) ++ s5 =
              h2 ++ ("after_connect", HookValue.remoteCommand s) :: (s4 ++ s5) := by
          simp
        rw [hassoc]
        exact lookupStr_append_right h2 "after_connect" (.remoteCommand s)
          (s4 ++ s5) hkeys

/-- Claim C6: the after_connect hook point only ever holds the
command-string variant: a callable value there fails host construction with
the invalid-hook-type error, while a string value is stored verbatim as a
RemoteCommand in the built host. -/
theorem after_connect_remote_only :
    (∀ (isUp : Char → Bool) (name : String)
        (config hookTb : List (LValue × LValue)) (fid : Nat),
        rawGetString config "hooks" = .ltable hookTb →
        rawGetString hookTb "after_connect" = .lfunc fid →
        ∃ lv, registerHost isUp name config =
          .error ("invalid hook type " ++ lvString lv)) ∧
      (∀ (isUp : Char → Bool) (name : String)
        (config hookTb : List (LValue × LValue)) (s : String) (h : Host),
        rawGetString config "hooks" = .ltable hookTb →
        rawGetString hookTb "after_connect" = .lstr s →
        registerHost isUp name config = .ok h →
        lookupStr h.Hooks "after_connect" = some (.remoteCommand s)) := by
  constructor
  · intro isUp name config hookTb fid hhk hfn
    obtain ⟨lv, he⟩ := hostHooks_afterconnect_fn hookTb fid hfn
    refine ⟨lv, ?_⟩
    simp [registerHost, hhk, hostHooks, he]
  · intro isUp name config hookTb s h hhk hstr hok
    have hparts := registerHost_ok_parts isUp name config h hok
    have hh : hostHooksTb hookTb = .ok h.Hooks := by
      have := hparts.2.1
      rw [hhk] at this
      exact this
    exact hostHooks_afterconnect_str hookTb s h.Hooks hstr hh

theorem after_connect_remote_only_w :
    (∃ lv, registerHost Char.isUpper "db"
        [(.lstr "hooks", .ltable [(.lstr "after_connect", .lfunc 0)])] =
        .error ("invalid hook type " ++ lvString lv)) ∧
      lookupStr
        (Host.Hooks
          { Name := "db"
            Config := []
            Hooks := [("after_connect", .remoteCommand "restart")]
            Description := ""
            Hidden := false
            Tags := [] })
        "after_connect" = some (.remoteCommand "restart") := by
  constructor
  · exact after_connect_remote_only.1 Char.isUpper "db"
      [(.lstr "hooks", .ltable [(.lstr "after_connect", .lfunc 0)])]
      [(.lstr "after_connect", .lfunc 0)] 0 rfl rfl
  · exact after_connect_remote_only.2 Char.isUpper "db"
      [(.lstr "hooks", .ltable [(.lstr "after_connect", .lstr "restart")])]
      [(.lstr "after_connect", .lstr "restart")] "restart" _ rfl rfl rfl

theorem tagsFold_ok_of_all (l : List (LValue × LValue))
    (hall : ∀ kv ∈ l, (toString kv.2).isSome = true) :
    tagsFold l = .ok (l.filterMap (fun kv => toString kv.2)) := by
  induction l with
  | nil => rfl
  | cons kv rest ih =>
    obtain ⟨s, hs⟩ := Option.isSome_iff_exists.mp (hall kv (by simp))
    have ih2 := ih (fun p hp => hall p (by simp [hp]))
    simp [tagsFold, hs, ih2, List.filterMap_cons]

theorem tagsFold_error_of_bad (l : List (LValue × LValue))
    (hbad : ∃ kv ∈ l, toString kv.2 = none) :
    tagsFold l = .error "unsupported format of tags." := by
  induction l with
  | nil => simp at hbad
  | cons kv rest ih =>
    cases hk : toString kv.2 with
    | none => simp [tagsFold, hk]
    | some s =>
      have hrest : ∃ p ∈ rest, toString p.2 = none := by
        obtain ⟨p, hp, hn⟩ := hbad
        rcases List.mem_cons.mp hp with hpe | hpr
        · rw [hpe] at hn
          rw [hn] at hk
          cases hk
        · exact ⟨p, hpr, hn⟩
      simp [tagsFold, hk, ih hrest]

/-- Claim C8, amended: for a host configuration whose hook registrations
succeed and whose tags value is table-shaped, construction fails with the
tags-format error when some element is not a string, and when every element
is a string the built host Tags is exactly the sequence of element values in
iteration order. -/
theorem host_tags_amended (isUp : Char → Bool) (name : String)
    (config tagsTb : List (LValue × LValue))
    (hh : ∃ hks, hostHooks (rawGetString config "hooks") = .ok hks)
    (ht : rawGetString config "tags" = .ltable tagsTb) :
    ((∃ kv ∈ tagsTb, toString kv.2 = none) →
        registerHost isUp name config = .error "unsupported format of tags.") ∧
      ((∀ kv ∈ tagsTb, (toString kv.2).isSome = true) →
        ∃ h, registerHost isUp name config = .ok h ∧
          h.Tags = tagsTb.filterMap (fun kv => toString kv.2)) := by
  obtain ⟨hks, hhk⟩ := hh
  constructor
  · intro hbad
    have hct : collectTags (rawGetString config "tags") =
        .error "unsupported format of tags." := by
      rw [ht]
      simp [collectTags, tagsFold_error_of_bad tagsTb hbad]
    simp [registerHost, hhk, hct]
  · intro hall
    have hct : collectTags (rawGetString config "tags") =
        .ok (tagsTb.filterMap (fun kv => toString kv.2)) := by
      rw [ht]
      simp [collectTags, tagsFold_ok_of_all tagsTb hall]
    refine ⟨{ Name := name
              Config := config.filter (fun e => isUp (firstRune (lvString e.1)))
              Hooks := hks
              Description := (toString (rawGetString config "description")).getD ""
              Hidden := (toBool (rawGetString config "hidden")).getD false
              Tags := tagsTb.filterMap (fun kv => toString kv.2) }, ?_, rfl⟩
    simp [registerHost, hhk, hct]

/-- Claim C8 counterexample: a host configuration whose tags table contains
a non-string element, but whose hooks table contains an invalid after
connect hook, fails with the invalid-hook-type error rather than with the
tags-format error the claim names. -/
theorem host_tags_precedence_cx :
    rawGetString [(LValue.lstr "hooks",
          LValue.ltable [(LValue.lstr "after_connect", LValue.lfunc 0)]),
        (LValue.lstr "tags", LValue.ltable [(LValue.lnum 1, LValue.lbool true)])]
        "tags" = .ltable [(LValue.lnum 1, LValue.lbool true)] ∧
    toString (LValue.lbool true) = none ∧
    registerHost Char.isUpper "h"
        [(LValue.lstr "hooks",
          LValue.ltable [(LValue.lstr "after_connect", LValue.lfunc 0)]),
        (LValue.lstr "tags", LValue.ltable [(LValue.lnum 1, LValue.lbool true)])] =
      .error "invalid hook type function: 0x0" ∧
    "invalid hook type function: 0x0" ≠ "unsupported format of tags." := by
  refine ⟨rfl, rfl, ?_, by decide⟩
  rfl

theorem host_tags_amended_w :
    registerHost Char.isUpper "h"
        [(.lstr "tags", .ltable [(.lnum 1, .lbool true)])] =
      .error "unsupported format of tags." ∧
    (∃ h, registerHost Char.isUpper "h"
        [(.lstr "tags", .ltable [(.lnum 1, .lstr "a"), (.lnum 2, .lstr "b")])] =
        .ok h ∧ h.Tags = ["a", "b"]) := by
  constructor
  · exact (host_tags_amended Char.isUpper "h"
      [(.lstr "tags", .ltable [(.lnum 1, .lbool true)])]
      [(.lnum 1, .lbool true)] ⟨[], rfl⟩ rfl).1
      ⟨(.lnum 1, .lbool true), by simp, rfl⟩
  · obtain ⟨h, hok, htags⟩ := (host_tags_amended Char.isUpper "h"
      [(.lstr "tags", .ltable [(.lnum 1, .lstr "a"), (.lnum 2, .lstr "b")])]
      [(.lnum 1, .lstr "a"), (.lnum 2, .lstr "b")] ⟨[], rfl⟩ rfl).2
      (by intro kv hkv
          simp at hkv
          rcases hkv with h1 | h1 <;> simp [h1, toString])
    exact ⟨h, hok, by rw [htags]; rfl⟩

theorem hasIntKey_iff (entries : List (LValue × LValue)) (i : Nat) :
    hasIntKey entries i = true ↔
      LValue.lnum (i : Int) ∈ entries.map Prod.fst := by
  simp only [hasIntKey, List.any_eq_true, List.mem_map]
  constructor
  · rintro ⟨e, he, hk⟩
    refine ⟨e, he, ?_⟩
    cases hf : e.1 <;> rw [hf] at hk <;> simp at hk
    case lnum j => rw [hk]
  · rintro ⟨e, he, hf⟩
    refine ⟨e, he, ?_⟩
    rw [hf]
    simp

theorem allPresent_iff (entries : List (LValue × LValue)) (n : Nat) :
    allPresent entries n = true ↔
      ∀ i, 1 ≤ i → i ≤ n → hasIntKey entries i = true := by
  simp only [allPresent, List.all_eq_true, List.mem_range]
  constructor
  · intro h i h1 h2
    have h3 := h (i - 1) (by omega)
    have h4 : i - 1 + 1 = i := by omega
    rwa [h4] at h3
  · intro h j hj
    exact h (j + 1) (by omega) (by omega)

theorem allPresent_le_length (entries : List (LValue × LValue))
    (hnd : entries.Pairwise (fun a b => a.1 ≠ b.1)) (n : Nat)
    (h : allPresent entries n = true) : n ≤ entries.length := by
  have hkeys : (entries.map Prod.fst).Nodup := List.pairwise_map.mpr hnd
  have hinj : Function.Injective
      (fun j : Nat => LValue.lnum ((j : Int) + 1)) := by
    intro a b hab
    simp only [LValue.lnum.injEq] at hab
    omega
  have hnd2 :
      ((List.range n).map (fun j : Nat => LValue.lnum ((j : Int) + 1))).Nodup :=
    (List.nodup_range n).map hinj
  have hsub :
      ((List.range n).map (fun j : Nat => LValue.lnum ((j : Int) + 1))) ⊆
        entries.map Prod.fst := by
    intro x hx
    simp only [List.mem_map, List.mem_range] at hx
    obtain ⟨j, hj, rfl⟩ := hx
    have hk := (allPresent_iff entries n).mp h (j + 1) (by omega) (by omega)
    have hm := (hasIntKey_iff entries (j + 1)).mp hk
    have hcast : ((j + 1 : Nat) : Int) = (j : Int) + 1 := by push_cast; ring
    rwa [hcast] at hm
  have hle := (hnd2.subperm hsub).length_le
  simpa using hle

theorem MaxN_isGreatest (entries : List (LValue × LValue))
    (hnd : entries.Pairwise (fun a b => a.1 ≠ b.1)) :
    (∀ i, 1 ≤ i → i ≤ MaxN entries → hasIntKey entries i = true) ∧
      (∀ n, (∀ i, 1 ≤ i → i ≤ n → hasIntKey entries i = true) →
        n ≤ MaxN entries) := by
  constructor
  · have hP : allPresent entries (MaxN entries) = true :=
      @Nat.findGreatest_spec 0 (fun k => allPresent entries k = true) _
        entries.length (Nat.zero_le entries.length) rfl
    exact fun i h1 h2 => (allPresent_iff entries (MaxN entries)).mp hP i h1 h2
  · intro n hn
    have hP : allPresent entries n = true := (allPresent_iff entries n).mpr hn
    exact Nat.le_findGreatest (allPresent_le_length entries hnd n hP) hP

theorem toGoValue_contiguous_example :
    toGoValue (.ltable [(.lnum 1, .lstr "a"), (.lnum 2, .lstr "b"),
        (.lnum 3, .lstr "c")]) =
      .garr [.gstr "a", .gstr "b", .gstr "c"] := by
  have h : MaxN [(LValue.lnum 1, LValue.lstr "a"), (LValue.lnum 2, LValue.lstr "b"),
      (LValue.lnum 3, LValue.lstr "c")] = 3 := by decide
  simp [toGoValue, h, rawGetInt, List.range_succ]

theorem toGoValue_gap_example :
    toGoValue (.ltable [(.lnum 1, .lstr "a"), (.lnum 3, .lstr "b")]) =
      .garr [.gstr "a"] := by
  have h : MaxN [(LValue.lnum 1, LValue.lstr "a"),
      (LValue.lnum 3, LValue.lstr "b")] = 1 := by decide
  simp [toGoValue, h, rawGetInt, List.range_succ]

/-- Claim C2, amended: maxN is the largest integer n such that keys 1..n are
all present (contiguous from 1); a table with keys 1,2,3 converts to a
Sequence of length 3 in index order; a table with keys 1,3 converts to a
Sequence of length 1 holding the value at key 1 (the non-contiguous key 3 is
silently ignored), not to a Mapping. -/
theorem toGoValue_maxn_amended :
    (∀ entries : List (LValue × LValue),
        entries.Pairwise (fun a b => a.1 ≠ b.1) →
        ((∀ i, 1 ≤ i → i ≤ MaxN entries → hasIntKey entries i = true) ∧
          (∀ n, (∀ i, 1 ≤ i → i ≤ n → hasIntKey entries i = true) →
            n ≤ MaxN entries))) ∧
      toGoValue (.ltable [(.lnum 1, .lstr "a"), (.lnum 2, .lstr "b"),
          (.lnum 3, .lstr "c")]) = .garr [.gstr "a", .gstr "b", .gstr "c"] ∧
      toGoValue (.ltable [(.lnum 1, .lstr "a"), (.lnum 3, .lstr "b")]) =
        .garr [.gstr "a"] :=
  ⟨MaxN_isGreatest, toGoValue_contiguous_example, toGoValue_gap_example⟩

theorem toGoValue_maxn_amended_w :
    hasIntKey [(LValue.lnum 1, LValue.lstr "a")] 1 = true ∧
      1 ≤ MaxN [(LValue.lnum 1, LValue.lstr "a")] := by
  have h := toGoValue_maxn_amended.1 [(LValue.lnum 1, LValue.lstr "a")]
    (by simp)
  refine ⟨?_, h.2 1 ?_⟩
  · decide
  · intro i h1 h2
    have h3 : i = 1 := by omega
    rw [h3]
    decide

/-- Claim C2 counterexample: a table with keys 1 and 3 (non-contiguous) does
not convert to a Mapping; it converts to a Sequence of length 1. -/
theorem toGoValue_noncontiguous_cx :
    toGoValue (.ltable [(.lnum 1, .lstr "a"), (.lnum 3, .lstr "b")]) =
        .garr [.gstr "a"] ∧
      ¬∃ m, toGoValue (.ltable [(.lnum 1, .lstr "a"), (.lnum 3, .lstr "b")]) =
        .gmap m := by
  have h : toGoValue (.ltable [(.lnum 1, .lstr "a"), (.lnum 3, .lstr "b")]) =
      .garr [.gstr "a"] := by
    have hm : MaxN [(LValue.lnum 1, LValue.lstr "a"),
        (LValue.lnum 3, LValue.lstr "b")] = 1 := by decide
    simp [toGoValue, hm, rawGetInt, List.range_succ]
  refine ⟨h, ?_⟩
  rintro ⟨m, hm⟩
  rw [h] at hm
  cases hm

end Essh
